import Mathlib

/-!
Verification of the articulation-set generator: a shallow embedding of
generate_articulation_sets.py (document builder, serializer field layout and
installer) together with theorems settling the specified properties.
-/

namespace LogicArt

/-- Values of a property-list document: integers, text, booleans, arrays and
keyed records.  This is the document shape the plist serializer consumes. -/
inductive PValue where
  | int : Int → PValue
  | str : String → PValue
  | bool : Bool → PValue
  | arr : List PValue → PValue
  | dict : List (String × PValue) → PValue

/-- An articulation mapping: a finite table from MIDI note numbers to
articulation display names, modelled as an association list whose keys are
distinct (Python dict semantics). -/
abbrev ArticulationMapping := List (Int × String)

/-- Keys of the mapping in insertion order (the Python dict key view). -/
def keysOf (m : ArticulationMapping) : List Int := m.map Prod.fst

/-- Embeds sorted(articulation_mapping.keys()) from line 135 of the source. -/
def sortedKeys (m : ArticulationMapping) : List Int :=
  List.insertionSort (fun a b => a ≤ b) (keysOf m)

/-- Embeds articulation_mapping[midi_note] for keys present in the mapping. -/
def lookupName (m : ArticulationMapping) (k : Int) : String :=
  (List.lookup k m).getD ""

/-- Embeds create_articulation_dict (source lines 109-118). -/
def create_articulation_dict (articulation_id : Int) (name : String)
    (mb1_value : Int) : PValue :=
  .dict [("ArticulationID", .int articulation_id),
         ("ID", .int (1000 + articulation_id)),
         ("Name", .str name),
         ("Output", .arr [.dict [("MB1", .int mb1_value), ("Status", .str "Note On")]])]

/-- Embeds the loop of generate_articulation_set (source lines 130-143): walks
the given key list carrying the running articulation_id counter. -/
def buildArticulationsFrom (m : ArticulationMapping) : List Int → Int → List PValue
  | [], _ => []
  | k :: rest, i =>
      create_articulation_dict i (lookupName m k) k :: buildArticulationsFrom m rest (i + 1)

/-- The articulations array built by generate_articulation_set: keys sorted
ascending, articulation_id starting at 1. -/
def entriesOf (m : ArticulationMapping) : List PValue :=
  buildArticulationsFrom m (sortedKeys m) 1

/-- Embeds os.path.basename: the part of the path after the last slash. -/
def basename (p : String) : String :=
  String.mk ((p.toList.reverse.takeWhile (fun c => c != '/')).reverse)

/-- Embeds os.path.splitext(b)[0] for a path with no separator (source line 235
applies it to a basename): drops the suffix starting at the last dot, except
when every character before that dot is itself a dot. -/
def splitext_root (b : String) : String :=
  match b.toList.reverse.dropWhile (fun c => c != '.') with
  | [] => b
  | _ :: before =>
      if before.all (fun c => c == '.') then b else String.mk before.reverse

/-- Embeds the document construction of generate_articulation_set (source lines
121-157): the articulations array surrounded by the fixed top-level fields.
The name argument is accepted exactly as in the source signature; writing the
file and printing progress are side effects outside the document value. -/
def generate_articulation_set (articulation_mapping : ArticulationMapping)
    (name : String) (output_path : String) : PValue :=
  .dict [("Articulations", .arr (entriesOf articulation_mapping)),
         ("InputMidiChannel", .int (-1)),
         ("MultipleOutputsActive", .bool false),
         ("Name", .str (basename output_path)),
         ("OctaveOffset", .int 0),
         ("Switches", .arr []),
         ("SwitchingEnabled", .bool false)]

/-- Looks a key up in an encoded record (first match wins, as in a dict). -/
def plistLookup (d : List (String × PValue)) (k : String) : Option PValue :=
  (d.find? (fun e => e.1 == k)).map Prod.snd

/-- Field access on an encoded record value. -/
def fieldOf (a : PValue) (k : String) : Option PValue :=
  match a with
  | .dict d => plistLookup d k
  | _ => none

/-- The integer stored under ArticulationID (the entry's sequenceId). -/
def seqIdOf (a : PValue) : Int :=
  match fieldOf a "ArticulationID" with
  | some (.int n) => n
  | _ => 0

/-- The integer stored under ID (the entry's displayId). -/
def idOf (a : PValue) : Int :=
  match fieldOf a "ID" with
  | some (.int n) => n
  | _ => 0

/-- The MB1 value of the single Output record (the entry's outputNote). -/
def outputNoteOf (a : PValue) : Int :=
  match fieldOf a "Output" with
  | some (.arr [o]) =>
      match fieldOf o "MB1" with
      | some (.int n) => n
      | _ => 0
  | _ => 0

/-- The integer sequence start, start+1, ..., start+n-1. -/
def rangeInts (start : Int) : Nat → List Int
  | 0 => []
  | n + 1 => start :: rangeInts (start + 1) n

theorem seqIdOf_create (i : Int) (nm : String) (k : Int) :
    seqIdOf (create_articulation_dict i nm k) = i := rfl

theorem idOf_create (i : Int) (nm : String) (k : Int) :
    idOf (create_articulation_dict i nm k) = 1000 + i := rfl

theorem outputNoteOf_create (i : Int) (nm : String) (k : Int) :
    outputNoteOf (create_articulation_dict i nm k) = k := rfl

theorem length_buildArticulationsFrom (m : ArticulationMapping) :
    ∀ (keys : List Int) (i : Int),
      (buildArticulationsFrom m keys i).length = keys.length
  | [], _ => rfl
  | _ :: rest, i => by
      simpa [buildArticulationsFrom] using length_buildArticulationsFrom m rest (i + 1)

theorem map_outputNoteOf_build (m : ArticulationMapping) :
    ∀ (keys : List Int) (i : Int),
      (buildArticulationsFrom m keys i).map outputNoteOf = keys
  | [], _ => rfl
  | k :: rest, i => by
      simp [buildArticulationsFrom, outputNoteOf_create,
        map_outputNoteOf_build m rest (i + 1)]

theorem map_seqIdOf_build (m : ArticulationMapping) :
    ∀ (keys : List Int) (i : Int),
      (buildArticulationsFrom m keys i).map seqIdOf = rangeInts i keys.length
  | [], _ => rfl
  | k :: rest, i => by
      simp [buildArticulationsFrom, rangeInts, seqIdOf_create,
        map_seqIdOf_build m rest (i + 1)]

theorem mem_buildArticulationsFrom (m : ArticulationMapping) :
    ∀ (keys : List Int) (i : Int) (e : PValue),
      e ∈ buildArticulationsFrom m keys i →
      ∃ j k, k ∈ keys ∧ e = create_articulation_dict j (lookupName m k) k
  | [], _, _, he => absurd he (List.not_mem_nil _)
  | k :: rest, i, e, he => by
      rcases List.mem_cons.mp he with h | h
      · exact ⟨i, k, List.Mem.head _, h⟩
      · obtain ⟨j, k', hk', he'⟩ := mem_buildArticulationsFrom m rest (i + 1) e h
        exact ⟨j, k', List.Mem.tail _ hk', he'⟩

theorem sortedKeys_perm (m : ArticulationMapping) :
    List.Perm (sortedKeys m) (keysOf m) :=
  List.perm_insertionSort _ _

theorem sortedKeys_sorted (m : ArticulationMapping) :
    List.Sorted (· ≤ ·) (sortedKeys m) :=
  List.sorted_insertionSort _ _

theorem sortedKeys_sorted_lt (m : ArticulationMapping)
    (h : (keysOf m).Nodup) : List.Sorted (· < ·) (sortedKeys m) :=
  (sortedKeys_sorted m).lt_of_le ((sortedKeys_perm m).nodup_iff.mpr h)

/-- C1 fails on the code: in the document built from the single-entry mapping
0 ↦ Legato, the encoded record stores 1 under ArticulationID but 1001 under
ID, so the two keys do not carry the same integer. -/
theorem articulationID_eq_ID_counterexample :
    ¬ (∀ e ∈ entriesOf [(0, "Legato")], seqIdOf e = idOf e) := by
  intro h
  have h1 := h (create_articulation_dict 1 "Legato" 0) (List.Mem.head _)
  rw [seqIdOf_create, idOf_create] at h1
  exact absurd h1 (by decide)

/-- C1 amended: in every encoded articulation record the key ArticulationID
carries the entry's sequenceId while the key ID carries sequenceId + 1000 (the
displayId): the two keys differ by exactly 1000 instead of duplicating one
another. -/
theorem articulationID_ID_offset (m : ArticulationMapping) (e : PValue)
    (he : e ∈ entriesOf m) :
    fieldOf e "ArticulationID" = some (.int (seqIdOf e)) ∧
    fieldOf e "ID" = some (.int (seqIdOf e + 1000)) := by
  obtain ⟨j, k, _, rfl⟩ := mem_buildArticulationsFrom m _ _ e he
  refine ⟨rfl, ?_⟩
  have h2 : fieldOf (create_articulation_dict j (lookupName m k) k) "ID" =
      some (.int (1000 + j)) := rfl
  rw [h2, seqIdOf_create, Int.add_comm]

theorem articulationID_ID_offset_witness :
    fieldOf (create_articulation_dict 1 "Legato" 0) "ArticulationID" =
      some (.int (seqIdOf (create_articulation_dict 1 "Legato" 0))) ∧
    fieldOf (create_articulation_dict 1 "Legato" 0) "ID" =
      some (.int (seqIdOf (create_articulation_dict 1 "Legato" 0) + 1000)) :=
  articulationID_ID_offset [(0, "Legato")] _ (List.Mem.head _)

/-- C3: for every articulation mapping, the built document's entries list has
length equal to the mapping's size, its outputNote values are strictly
ascending, and its sequenceId values are exactly 1, 2, ..., n assigned in
ascending MIDI-note order with no gaps. -/
theorem entries_length_sorted_seq (m : ArticulationMapping)
    (h : (keysOf m).Nodup) :
    (entriesOf m).length = m.length ∧
    List.Sorted (· < ·) ((entriesOf m).map outputNoteOf) ∧
    (entriesOf m).map seqIdOf = rangeInts 1 m.length := by
  refine ⟨?_, ?_, ?_⟩
  · rw [entriesOf, length_buildArticulationsFrom, sortedKeys,
      List.length_insertionSort, keysOf, List.length_map]
  · rw [entriesOf, map_outputNoteOf_build]
    exact sortedKeys_sorted_lt m h
  · rw [entriesOf, map_seqIdOf_build, sortedKeys,
      List.length_insertionSort, keysOf, List.length_map]

theorem entries_length_sorted_seq_witness :
    (keysOf [(2, "Spiccato"), (0, "Legato")]).Nodup ∧
    ((entriesOf [(2, "Spiccato"), (0, "Legato")]).length = 2 ∧
      List.Sorted (· < ·)
        ((entriesOf [(2, "Spiccato"), (0, "Legato")]).map outputNoteOf) ∧
      (entriesOf [(2, "Spiccato"), (0, "Legato")]).map seqIdOf = rangeInts 1 2) :=
  ⟨by decide, entries_length_sorted_seq [(2, "Spiccato"), (0, "Legato")] (by decide)⟩

/-- C4: for every entry of every built document, the displayId (field ID)
equals the sequenceId (field ArticulationID) + 1000, and the outputNote is one
of the source mapping's keys, unchanged. -/
theorem entry_displayId_and_outputNote (m : ArticulationMapping) (e : PValue)
    (he : e ∈ entriesOf m) :
    idOf e = seqIdOf e + 1000 ∧ outputNoteOf e ∈ keysOf m := by
  obtain ⟨j, k, hk, rfl⟩ := mem_buildArticulationsFrom m _ _ e he
  refine ⟨by rw [idOf_create, seqIdOf_create, Int.add_comm], ?_⟩
  rw [outputNoteOf_create]
  exact (sortedKeys_perm m).mem_iff.mp hk

theorem entry_displayId_and_outputNote_witness :
    idOf (create_articulation_dict 1 "Sustain" 27) =
      seqIdOf (create_articulation_dict 1 "Sustain" 27) + 1000 ∧
    outputNoteOf (create_articulation_dict 1 "Sustain" 27) ∈
      keysOf [(27, "Sustain")] :=
  entry_displayId_and_outputNote [(27, "Sustain")] _ (List.Mem.head _)

/-- C5: the Output field of every encoded record is an array holding exactly
one record with MB1 = the raw MIDI note key and Status = Note On; the first
conjunct shows the key is passed through verbatim for any integer, with no
range validation, transposition or channel logic. -/
theorem output_single_record :
    (∀ (i k : Int) (nm : String),
        fieldOf (create_articulation_dict i nm k) "Output" =
          some (.arr [.dict [("MB1", .int k), ("Status", .str "Note On")]])) ∧
    (∀ (m : ArticulationMapping) (e : PValue), e ∈ entriesOf m →
        fieldOf e "Output" =
          some (.arr [.dict [("MB1", .int (outputNoteOf e)),
                             ("Status", .str "Note On")]])) := by
  refine ⟨fun i k nm => rfl, fun m e he => ?_⟩
  obtain ⟨j, k, _, rfl⟩ := mem_buildArticulationsFrom m _ _ e he
  rfl

theorem output_single_record_witness :
    fieldOf (create_articulation_dict 1 "Marcato" 999) "Output" =
      some (.arr [.dict [("MB1", .int 999), ("Status", .str "Note On")]]) ∧
    fieldOf (create_articulation_dict 1 "Tremolo" 35) "Output" =
      some (.arr [.dict
        [("MB1", .int (outputNoteOf (create_articulation_dict 1 "Tremolo" 35))),
         ("Status", .str "Note On")]]) :=
  ⟨output_single_record.1 1 999 "Marcato",
   output_single_record.2 [(35, "Tremolo")] _ (List.Mem.head _)⟩

/-- C2 fails on the code: for the output path output/Test.plist the code
stores the basename with its extension intact, Test.plist, as the top-level
Name field, while the extension-stripped name computed in main (and documented
as the one used in the plist) is Test; the two differ. -/
theorem top_level_name_keeps_extension :
    fieldOf (generate_articulation_set [(0, "Legato")]
        (splitext_root (basename "output/Test.plist")) "output/Test.plist")
        "Name" = some (.str "Test.plist") ∧
    splitext_root (basename "output/Test.plist") = "Test" ∧
    ("Test.plist" : String) ≠ "Test" :=
  ⟨rfl, rfl, by decide⟩

/-- C6: building from an empty mapping is not an error: it yields a document
with zero entries in which every fixed top-level field is still present and
correctly valued (InputMidiChannel = -1, MultipleOutputsActive = false,
OctaveOffset = 0, Switches = empty array, SwitchingEnabled = false). -/
theorem empty_mapping_document (name output_path : String) :
    generate_articulation_set [] name output_path =
      .dict [("Articulations", .arr []),
             ("InputMidiChannel", .int (-1)),
             ("MultipleOutputsActive", .bool false),
             ("Name", .str (basename output_path)),
             ("OctaveOffset", .int 0),
             ("Switches", .arr []),
             ("SwitchingEnabled", .bool false)] := rfl

/-- C9: the name argument of generate_articulation_set never influences the
generated document: with the same mapping and output path, any two name values
give identical documents (the parameter is never read). -/
theorem name_argument_irrelevant (m : ArticulationMapping) (n1 n2 p : String) :
    generate_articulation_set m n1 p = generate_articulation_set m n2 p := rfl

/-- A filesystem node: a file with its contents, or a directory with its
named children. -/
inductive FSNode where
  | file : String → FSNode
  | dir : List (String × FSNode) → FSNode

/-- A directory listing: named children with distinct names (os.listdir view). -/
abbrev DirListing := List (String × FSNode)

/-- The filesystem state the installer touches: the output root (ROOT_PATH)
and the Logic Pro settings root (LOGIC_PRO_PATH), each either absent or a
directory with its listing. -/
structure FS where
  outputRoot : Option DirListing
  logicRoot : Option DirListing

/-- The observable outcome of one copy_to_logic_pro call: the filesystem after
the call, the lines printed to stderr and stdout, and the copied_items list. -/
structure InstallResult where
  fs : FS
  stderrLines : List String
  stdoutLines : List String
  copied_items : List String

/-- Finds the child of a directory listing with the given name. -/
def dirLookup : DirListing → String → Option FSNode
  | [], _ => none
  | (n, node) :: rest, nm => if n = nm then some node else dirLookup rest nm

/-- Removes every child with the given name (shutil.rmtree of that entry). -/
def removeEntry : DirListing → String → DirListing
  | [], _ => []
  | (n, node) :: rest, nm =>
      if n = nm then removeEntry rest nm else (n, node) :: removeEntry rest nm

/-- Deletes any same-named entry, then installs the given node under that name
(delete-then-copy overwrite semantics). -/
def overwriteEntry (d : DirListing) (nm : String) (node : FSNode) : DirListing :=
  removeEntry d nm ++ [(nm, node)]

/-- Whether the lookup result is an existing plain file. -/
def isFileEntry : Option FSNode → Bool
  | some (.file _) => true
  | _ => false

/-- Destination node produced by shutil.copy2 of file contents c onto the name
nm: if the destination entry is an existing directory, copy2 places the file
inside it under its own basename; otherwise it overwrites the entry. -/
def copy2Dest (logic : DirListing) (nm : String) (c : String) : FSNode :=
  match dirLookup logic nm with
  | some (.dir sub) => .dir (overwriteEntry sub nm (.file c))
  | _ => .file c

/-- Embeds the copy loop of copy_to_logic_pro (source lines 187-201): for each
child of the output root, a directory child first rmtree-deletes any existing
same-named destination entry (rmtree raises when that entry is a plain file)
and then copytree-copies the source directory in full; a file child is copied
with copy2.  Returns the updated destination listing and copied_items. -/
def copyItems : DirListing → DirListing → List String →
    Except String (DirListing × List String)
  | [], logic, copied => .ok (logic, copied)
  | (nm, .dir t) :: rest, logic, copied =>
      if isFileEntry (dirLookup logic nm) then
        .error ("NotADirectoryError: " ++ nm)
      else
        copyItems rest (overwriteEntry logic nm (.dir t))
          (copied ++ ["Directory: " ++ nm])
  | (nm, .file c) :: rest, logic, copied =>
      copyItems rest (overwriteEntry logic nm (copy2Dest logic nm c))
        (copied ++ ["File: " ++ nm])

/-- Packages the outcome of the copy loop (source lines 203-208): an exception
propagates unchanged, and a normal finish updates the Logic Pro root and
reports either the copied items or that none were found. -/
def installFinish (fs : FS) :
    Except String (DirListing × List String) → Except String InstallResult
  | .error e => .error e
  | .ok (logic1, copied) =>
      .ok { fs := { fs with logicRoot := some logic1 }
            stderrLines := []
            stdoutLines :=
              if copied.isEmpty then ["No items found in output to copy"]
              else "Copied to Logic Pro location:" :: copied
            copied_items := copied }

/-- Embeds copy_to_logic_pro (source lines 175-208).  When the output root
does not exist it prints a diagnostic to stderr and returns; otherwise it
ensures the Logic Pro root exists (makedirs with exist_ok), copies every child
of the output root, and reports what happened.  An Except.error value
represents an uncaught exception. -/
def copy_to_logic_pro (fs : FS) : Except String InstallResult :=
  match fs.outputRoot with
  | none =>
      .ok { fs := fs
            stderrLines := ["Error: Output directory output does not exist"]
            stdoutLines := []
            copied_items := [] }
  | some children =>
      installFinish fs (copyItems children (fs.logicRoot.getD []) [])

/-- Exit code of the run as observed by the invoker: 0 unless an exception
propagated. -/
def installExitCode (r : Except String InstallResult) : Nat :=
  match r with
  | .ok _ => 0
  | .error _ => 1

theorem dirLookup_overwriteEntry_self (d : DirListing) (nm : String)
    (node : FSNode) : dirLookup (overwriteEntry d nm node) nm = some node := by
  induction d with
  | nil => simp [overwriteEntry, removeEntry, dirLookup]
  | cons a rest ih =>
      obtain ⟨n, x⟩ := a
      by_cases h : n = nm
      · simpa [overwriteEntry, removeEntry, h] using ih
      · simpa [overwriteEntry, removeEntry, dirLookup, h] using ih

theorem dirLookup_overwriteEntry_ne (d : DirListing) (nm n0 : String)
    (node : FSNode) (h : n0 ≠ nm) :
    dirLookup (overwriteEntry d n0 node) nm = dirLookup d nm := by
  induction d with
  | nil => simp [overwriteEntry, removeEntry, dirLookup, h]
  | cons a rest ih =>
      obtain ⟨n, x⟩ := a
      by_cases hn : n = n0
      · simpa [overwriteEntry, removeEntry, dirLookup, hn, h] using ih
      · by_cases hm : n = nm
        · simp [overwriteEntry, removeEntry, dirLookup, hn, hm, Ne.symm h]
        · simpa [overwriteEntry, removeEntry, dirLookup, hn, hm] using ih

theorem copyItems_preserve (nm : String) :
    ∀ (children : DirListing) (logic : DirListing) (c : List String)
      (l' : DirListing) (c' : List String),
      nm ∉ children.map Prod.fst →
      copyItems children logic c = .ok (l', c') →
      dirLookup l' nm = dirLookup logic nm
  | [], logic, c, l', c', _, h => by
      simp only [copyItems, Except.ok.injEq, Prod.mk.injEq] at h
      rw [h.1]
  | (n0, .dir t) :: rest, logic, c, l', c', hnm, h => by
      simp only [List.map_cons, List.mem_cons, not_or] at hnm
      rw [copyItems] at h
      by_cases hf : isFileEntry (dirLookup logic n0)
      · rw [if_pos hf] at h
        exact absurd h (by simp)
      · rw [if_neg hf] at h
        rw [copyItems_preserve nm rest _ _ l' c' hnm.2 h]
        exact dirLookup_overwriteEntry_ne logic nm n0 _ (Ne.symm hnm.1)
  | (n0, .file fc) :: rest, logic, c, l', c', hnm, h => by
      simp only [List.map_cons, List.mem_cons, not_or] at hnm
      rw [copyItems] at h
      rw [copyItems_preserve nm rest _ _ l' c' hnm.2 h]
      exact dirLookup_overwriteEntry_ne logic nm n0 _ (Ne.symm hnm.1)

theorem copyItems_lookup_dir (nm : String) (t : DirListing) :
    ∀ (children : DirListing) (logic : DirListing) (c : List String)
      (l' : DirListing) (c' : List String),
      (children.map Prod.fst).Nodup →
      (nm, FSNode.dir t) ∈ children →
      copyItems children logic c = .ok (l', c') →
      dirLookup l' nm = some (.dir t)
  | [], _, _, _, _, _, hmem, _ => absurd hmem (List.not_mem_nil _)
  | (n0, node0) :: rest, logic, c, l', c', hnd, hmem, h => by
      rw [List.map_cons, List.nodup_cons] at hnd
      rcases List.mem_cons.mp hmem with heq | hmem'
      · injection heq with hn hnode
        subst hn
        subst hnode
        rw [copyItems] at h
        by_cases hf : isFileEntry (dirLookup logic nm)
        · rw [if_pos hf] at h
          exact absurd h (by simp)
        · rw [if_neg hf] at h
          rw [copyItems_preserve nm rest _ _ l' c' hnd.1 h]
          exact dirLookup_overwriteEntry_self logic nm _
      · cases node0 with
        | dir t0 =>
            rw [copyItems] at h
            by_cases hf : isFileEntry (dirLookup logic n0)
            · rw [if_pos hf] at h
              exact absurd h (by simp)
            · rw [if_neg hf] at h
              exact copyItems_lookup_dir nm t rest _ _ l' c' hnd.2 hmem' h
        | file fc =>
            rw [copyItems] at h
            exact copyItems_lookup_dir nm t rest _ _ l' c' hnd.2 hmem' h

/-- C7: invoking the installer when the output root does not exist propagates
no exception: a diagnostic is emitted to the error stream, no copy is
attempted (the filesystem, including the destination root, is untouched) and
the run exits with code 0. -/
theorem install_missing_root (fs : FS) (h : fs.outputRoot = none) :
    copy_to_logic_pro fs =
      .ok { fs := fs
            stderrLines := ["Error: Output directory output does not exist"]
            stdoutLines := []
            copied_items := [] } ∧
    installExitCode (copy_to_logic_pro fs) = 0 := by
  have h1 : copy_to_logic_pro fs =
      .ok { fs := fs
            stderrLines := ["Error: Output directory output does not exist"]
            stdoutLines := []
            copied_items := [] } := by
    rw [copy_to_logic_pro, h]
  exact ⟨h1, by rw [h1]; rfl⟩

theorem install_missing_root_witness :
    copy_to_logic_pro ⟨none, some []⟩ =
      .ok { fs := ⟨none, some []⟩
            stderrLines := ["Error: Output directory output does not exist"]
            stdoutLines := []
            copied_items := [] } ∧
    installExitCode (copy_to_logic_pro ⟨none, some []⟩) = 0 :=
  install_missing_root ⟨none, some []⟩ rfl

/-- C8: for every directory child of the output root, when the install run
returns normally the destination root's same-named entry afterwards is exactly
the source directory tree: any previously existing same-named destination
entry was deleted before the copy, so old files not present in the source do
not survive. -/
theorem install_replaces_directory (fs : FS) (children : DirListing)
    (nm : String) (t : DirListing) (r : InstallResult)
    (h1 : fs.outputRoot = some children)
    (h2 : (children.map Prod.fst).Nodup)
    (h3 : (nm, FSNode.dir t) ∈ children)
    (h4 : copy_to_logic_pro fs = .ok r) :
    ∃ l, r.fs.logicRoot = some l ∧ dirLookup l nm = some (.dir t) := by
  have key : copy_to_logic_pro fs =
      installFinish fs (copyItems children (fs.logicRoot.getD []) []) := by
    rw [copy_to_logic_pro, h1]
  rw [key] at h4
  cases hc : copyItems children (fs.logicRoot.getD []) [] with
  | error e =>
      rw [hc, installFinish] at h4
      exact absurd h4 (by simp)
  | ok p =>
      obtain ⟨logic1, copied⟩ := p
      rw [hc, installFinish] at h4
      simp only [Except.ok.injEq] at h4
      refine ⟨logic1, ?_, copyItems_lookup_dir nm t children _ [] _ _ h2 h3 hc⟩
      rw [← h4]

theorem install_replaces_directory_witness :
    ∃ l, (InstallResult.fs
        { fs := ⟨some [("A", .dir [("new.plist", .file "N")])],
                 some [("A", .dir [("new.plist", .file "N")])]⟩
          stderrLines := []
          stdoutLines := ["Copied to Logic Pro location:", "Directory: A"]
          copied_items := ["Directory: A"] }).logicRoot = some l ∧
      dirLookup l "A" = some (.dir [("new.plist", .file "N")]) :=
  install_replaces_directory
    ⟨some [("A", .dir [("new.plist", .file "N")])],
     some [("A", .dir [("old.plist", .file "O")])]⟩
    [("A", .dir [("new.plist", .file "N")])]
    "A" [("new.plist", .file "N")] _ rfl (by simp) (List.Mem.head _) rfl

/-- C10: invoking the installer when the output root exists but has no
children still creates the destination root if it was absent, copies nothing,
reports that no items were found, and returns without error. -/
theorem install_empty_root (fs : FS) (h : fs.outputRoot = some []) :
    copy_to_logic_pro fs =
      .ok { fs := { fs with logicRoot := some (fs.logicRoot.getD []) }
            stderrLines := []
            stdoutLines := ["No items found in output to copy"]
            copied_items := [] } ∧
    installExitCode (copy_to_logic_pro fs) = 0 := by
  obtain ⟨o, lg⟩ := fs
  have ho : o = some [] := h
  subst ho
  exact ⟨rfl, rfl⟩

theorem install_empty_root_witness :
    copy_to_logic_pro ⟨some [], none⟩ =
      .ok { fs := ⟨some [], some []⟩
            stderrLines := []
            stdoutLines := ["No items found in output to copy"]
            copied_items := [] } ∧
    installExitCode (copy_to_logic_pro ⟨some [], none⟩) = 0 :=
  install_empty_root ⟨some [], none⟩ rfl

end LogicArt
